import Mathlib

/-!
Verification of the antismash-js region viewer (`src/viewer.ts`) and clipboard
helper (`src/clipboard.ts`).  JavaScript numbers are modelled as rationals,
strings subject to character-level reasoning as `List Char`, and the DOM-backed
viewer state (scale domains, minimap window geometry, per-ORF selection flags)
as an explicit record threaded through the event handlers.
-/

namespace Antismash

/-- Shallow embedding of a two-point d3 `scaleLinear`: `d0`/`d1` are the domain
endpoints, `r0`/`r1` the range endpoints. -/
structure LinearScale where
  d0 : ℚ
  d1 : ℚ
  r0 : ℚ
  r1 : ℚ
deriving Repr, DecidableEq

/-- Application of a d3 linear scale: normalise into the domain then
interpolate into the range.  d3's `normalize` returns the constant 1/2 when the
domain is degenerate, mapping everything to the range midpoint. -/
def LinearScale.apply (s : LinearScale) (x : ℚ) : ℚ :=
  if s.d1 - s.d0 = 0 then s.r0 + (s.r1 - s.r0) / 2
  else s.r0 + (x - s.d0) * (s.r1 - s.r0) / (s.d1 - s.d0)

/-- The fields of the `Orf` class (`classes/orf.ts`) that the viewer logic
reads.  `otherSide` holds the locus tag of the paired cross-origin ORF when
present (the source stores the paired `Orf` object itself). -/
structure Orf where
  locusTag : String
  start : ℚ
  «end» : ℚ
  strand : ℤ
  type : String
  group : Option ℚ := none
  resistance : Bool := false
  otherSide : Option String := none
deriving Repr, DecidableEq

/-- `Orf.isSplit`: a cross-origin ORF is one that has a paired other side. -/
def Orf.isSplit (o : Orf) : Bool := o.otherSide.isSome

/-- The fields of the `Area` class (`classes/area.ts`) needed here: only the
`group` attribute feeds the cross-origin pairing check. -/
structure Area where
  group : Option ℚ := none
deriving Repr, DecidableEq

/-- The fields of the `IRegion` data structure read by the viewer. -/
structure IRegion where
  anchor : String
  idx : ℤ
  start : ℚ
  «end» : ℚ
  orfs : List Orf
  clusters : List Area
deriving Repr, DecidableEq

/-- JavaScript truthiness of an optional numeric attribute: `undefined` and `0`
are falsy, everything else truthy (used by `if (orf.group)`). -/
def truthyNumber : Option ℚ → Bool
  | none => false
  | some q => q != 0

/-- Return value of `pairOrfs` in `viewer.ts`: the grouping map is nonempty
exactly when some ORF carries a truthy `group` attribute. -/
def pairOrfs (orfs : List Orf) : Bool := orfs.any (fun o => truthyNumber o.group)

/-- Return value of `pairBorders` in `viewer.ts`: nonempty grouping map exactly
when some border area carries a truthy `group` attribute. -/
def pairBorders (borders : List Area) : Bool :=
  borders.any (fun b => truthyNumber b.group)

/-- The padding modifier computed in `drawRegion`:
`const modifier = containsPairedElements ? 10 : 0;` where
`containsPairedElements = containsPairedOrfs || containsPairedBorders`. -/
def regionModifier (region : IRegion) : ℚ :=
  if pairOrfs region.orfs || pairBorders region.clusters then 10 else 0

/-- The main coordinate scale constructed in `drawRegion`:
`scale = d3scaleLinear().domain([selectionStart, selectionEnd]).range([2 + modifier, width - 2 - modifier])`. -/
def drawRegionScale (region : IRegion) (selectionStart selectionEnd width : ℚ) :
    LinearScale :=
  { d0 := selectionStart, d1 := selectionEnd,
    r0 := 2 + regionModifier region, r1 := width - 2 - regionModifier region }

/-- A concrete ORF used to instantiate hypotheses of proved theorems. -/
def sampleOrf : Orf :=
  { locusTag := "abc", start := 10, «end» := 200, strand := 1,
    type := "biosynthetic", group := none }

/-- A concrete region used to instantiate hypotheses of proved theorems. -/
def sampleRegion : IRegion :=
  { anchor := "r1c1", idx := 1, start := 0, «end» := 1000,
    orfs := [sampleOrf], clusters := [] }

/-- Claim C1: for every call to `drawRegion` with selection bounds
`[selectionStart, selectionEnd]`, container width `w` and paired-element
modifier `m` (10 when the region contains paired cross-origin elements,
otherwise 0), the main coordinate scale maps every genomic position `p` to
`(2 + m) + (p - selectionStart) * ((w - 2 - m) - (2 + m)) / (selectionEnd - selectionStart)`,
in particular sending `selectionStart` to `2 + m` and `selectionEnd` to
`w - 2 - m`. -/
theorem drawRegion_scale_linear_map
    (region : IRegion) (selectionStart selectionEnd width p : ℚ)
    (h : selectionStart ≠ selectionEnd) :
    (drawRegionScale region selectionStart selectionEnd width).apply p =
      (2 + regionModifier region) +
        (p - selectionStart) *
          ((width - 2 - regionModifier region) - (2 + regionModifier region)) /
          (selectionEnd - selectionStart) := by
  unfold drawRegionScale LinearScale.apply
  simp only
  rw [if_neg]
  intro h0
  exact h (by linarith)

/-- Concrete instantiation of `drawRegion_scale_linear_map`. -/
theorem drawRegion_scale_linear_map_witness :
    (0 : ℚ) ≠ 1000 ∧
      (drawRegionScale sampleRegion 0 1000 700).apply 500 =
        (2 + regionModifier sampleRegion) +
          (500 - 0) *
            ((700 - 2 - regionModifier sampleRegion) -
              (2 + regionModifier sampleRegion)) / (1000 - 0) :=
  ⟨by norm_num, drawRegion_scale_linear_map sampleRegion 0 1000 700 500 (by norm_num)⟩

/-- The module-level mutable state of `viewer.ts` together with the DOM-backed
attributes the handlers read and write: the main scale, the minimap scale, the
`x` attributes of the two minimap grabbers, the `x`/`width` attributes of the
minimap window rectangle, and the per-ORF selection flags (presence of the
`svgene-selected-orf` class, one flag per ORF element of the displayed
region). -/
structure ViewerState where
  displayedRegion : Option IRegion
  uniqueID : ℤ
  scale : LinearScale
  minimapScale : LinearScale
  grabberA : ℚ
  grabberB : ℚ
  windowX : ℚ
  windowWidth : ℚ
  selected : List Bool
deriving Repr, DecidableEq

/-- The number of elements currently carrying the selected-ORF class, i.e.
`$(".svgene-selected-orf").length` restricted to one flag per ORF. -/
def selectedCount (sel : List Bool) : ℕ := sel.count true

/-- Effect of `selectOrfs()` with no argument: every ORF element becomes
selected. -/
def selectAllOrfs (sel : List Bool) : List Bool := List.replicate sel.length true

/-- `change_view(start, end, changedByMinimap)` from `viewer.ts`: widens the
range by one on each side, updates the main scale's domain, reselects all ORFs
if none are selected, and (unless the change came from the minimap) moves the
minimap grabbers and window to match.  The `changedByMinimap` parameter is
optional in the source and defaults to `false`. -/
def change_view (startPos endPos : ℚ) (changedByMinimap : Option Bool)
    (s : ViewerState) : ViewerState :=
  match s.displayedRegion with
  | none => s
  | some _ =>
    let cbm := changedByMinimap.getD false
    let start1 := startPos - 1
    let end1 := endPos + 1
    let s1 := { s with scale := { s.scale with d0 := start1, d1 := end1 } }
    if cbm then s1
    else
      let s2 := if selectedCount s1.selected = 0 then
          { s1 with selected := selectAllOrfs s1.selected }
        else s1
      let x1 := s.minimapScale.apply start1
      let x2 := s.minimapScale.apply end1
      { s2 with grabberA := x1, grabberB := x2, windowX := x1,
                windowWidth := x2 - x1 }

/-- A concrete viewer state used to instantiate hypotheses of proved
theorems. -/
def sampleState : ViewerState :=
  { displayedRegion := some sampleRegion, uniqueID := 1,
    scale := ⟨0, 1000, 2, 698⟩, minimapScale := ⟨0, 1000, 175, 525⟩,
    grabberA := 175, grabberB := 525, windowX := 175, windowWidth := 350,
    selected := [true] }

/-- Claim C2: when `change_view(start, end)` runs without the
`changedByMinimap` flag, after widening the range by one on each side it sets
the main scale's domain to `[start - 1, end + 1]`, puts the left grabber at
`minimapScale(start - 1)`, the right grabber at `minimapScale(end + 1)`, and
makes the window rectangle span exactly between the two; with
`changedByMinimap` set, none of the minimap window elements change. -/
theorem change_view_minimap_sync
    (s : ViewerState) (r : IRegion) (startPos endPos : ℚ)
    (h : s.displayedRegion = some r) :
    ((change_view startPos endPos none s).scale.d0 = startPos - 1 ∧
     (change_view startPos endPos none s).scale.d1 = endPos + 1 ∧
     (change_view startPos endPos none s).grabberA =
       s.minimapScale.apply (startPos - 1) ∧
     (change_view startPos endPos none s).grabberB =
       s.minimapScale.apply (endPos + 1) ∧
     (change_view startPos endPos none s).windowX =
       s.minimapScale.apply (startPos - 1) ∧
     (change_view startPos endPos none s).windowWidth =
       s.minimapScale.apply (endPos + 1) - s.minimapScale.apply (startPos - 1)) ∧
    ((change_view startPos endPos (some true) s).grabberA = s.grabberA ∧
     (change_view startPos endPos (some true) s).grabberB = s.grabberB ∧
     (change_view startPos endPos (some true) s).windowX = s.windowX ∧
     (change_view startPos endPos (some true) s).windowWidth = s.windowWidth) := by
  unfold change_view
  rw [h]
  constructor
  · by_cases hc : selectedCount s.selected = 0 <;> simp [hc]
  · simp

/-- Concrete instantiation of `change_view_minimap_sync`. -/
theorem change_view_minimap_sync_witness :
    sampleState.displayedRegion = some sampleRegion ∧
      (change_view 100 300 none sampleState).grabberA =
        sampleState.minimapScale.apply (100 - 1) :=
  ⟨rfl, (change_view_minimap_sync sampleState sampleRegion 100 300 rfl).1.2.2.1⟩

/-- `boundedValue(minValue, value, maxValue)` from `viewer.ts`:
`Math.max(minValue, Math.min(value, maxValue))`. -/
def boundedValue (minValue value maxValue : ℚ) : ℚ :=
  max minValue (min value maxValue)

/-- Body of the drag handler installed on the minimap window rectangle in
`createMinimap`.  Inputs are the four scaled bounds captured by the closure,
the window's current `x` attribute, its current `width` attribute, and the
drag event's `dx`.  Returns the new window `x`, the new window `width`, and
the new right-grabber position `x2`.  The handler's unused local `dx`
binding (mouse-to-left-edge gap) is omitted. -/
def minimapWindowDrag (scaledRegionStart scaledRegionEnd minWindowEnd
    maxWindowStart current windowWidth eventDx : ℚ) : ℚ × ℚ × ℚ :=
  let newPosition := current + eventDx
  let x1 := boundedValue scaledRegionStart newPosition maxWindowStart
  let result :=
    if newPosition < scaledRegionStart then
      (x1, max (minWindowEnd - scaledRegionStart)
               (windowWidth - (scaledRegionStart - newPosition)))
    else if newPosition + windowWidth > scaledRegionEnd then
      let x1b := min newPosition maxWindowStart
      (x1b, scaledRegionEnd - x1b)
    else
      (x1, windowWidth)
  let x1f := boundedValue scaledRegionStart result.1 maxWindowStart
  let x2 := max minWindowEnd (x1f + result.2)
  (x1f, result.2, x2)

/-- A strictly widening two-point linear scale with ordered range endpoints is
monotone. -/
theorem LinearScale.apply_mono (s : LinearScale) (hd : s.d0 < s.d1)
    (hr : s.r0 ≤ s.r1) {x y : ℚ} (hxy : x ≤ y) : s.apply x ≤ s.apply y := by
  unfold LinearScale.apply
  have hk : (0 : ℚ) < s.d1 - s.d0 := by linarith
  rw [if_neg hk.ne', if_neg hk.ne']
  have hnum : (x - s.d0) * (s.r1 - s.r0) ≤ (y - s.d0) * (s.r1 - s.r0) :=
    mul_le_mul_of_nonneg_right (by linarith) (by linarith)
  have := (div_le_div_iff_of_pos_right hk).mpr hnum
  linarith

/-- Claim C3: on every drag event on the minimap window, given the prior
window within the region's scaled bounds, the new left edge is clamped between
the scaled region start and the maximum window start, and the new right edge
(left edge plus width) never exceeds the scaled region end — the minimap
window cannot be dragged outside the region's scaled bounds. -/
theorem minimap_window_drag_stays_in_bounds
    (ms : LinearScale) (regionStart regionEnd : ℚ)
    (hd : ms.d0 < ms.d1) (hr : ms.r0 ≤ ms.r1) (hre : regionStart ≤ regionEnd)
    (current windowWidth eventDx : ℚ)
    (hcur : ms.apply regionStart ≤ current)
    (hwin : current + windowWidth ≤ ms.apply regionEnd) :
    ms.apply regionStart ≤
        (minimapWindowDrag (ms.apply regionStart) (ms.apply regionEnd)
          (ms.apply (min regionEnd (regionStart + 1000)))
          (ms.apply (max regionStart (regionEnd - 1000)))
          current windowWidth eventDx).1 ∧
      (minimapWindowDrag (ms.apply regionStart) (ms.apply regionEnd)
          (ms.apply (min regionEnd (regionStart + 1000)))
          (ms.apply (max regionStart (regionEnd - 1000)))
          current windowWidth eventDx).1 ≤
        ms.apply (max regionStart (regionEnd - 1000)) ∧
      (minimapWindowDrag (ms.apply regionStart) (ms.apply regionEnd)
            (ms.apply (min regionEnd (regionStart + 1000)))
            (ms.apply (max regionStart (regionEnd - 1000)))
            current windowWidth eventDx).1 +
          (minimapWindowDrag (ms.apply regionStart) (ms.apply regionEnd)
            (ms.apply (min regionEnd (regionStart + 1000)))
            (ms.apply (max regionStart (regionEnd - 1000)))
            current windowWidth eventDx).2.1 ≤
        ms.apply regionEnd := by
  set SRS := ms.apply regionStart with hSRS
  set SRE := ms.apply regionEnd with hSRE
  set MWE := ms.apply (min regionEnd (regionStart + 1000)) with hMWE
  set MWS := ms.apply (max regionStart (regionEnd - 1000)) with hMWS
  have h1 : SRS ≤ MWS := ms.apply_mono hd hr (le_max_left _ _)
  have h2 : MWS ≤ SRE :=
    ms.apply_mono hd hr (max_le hre (by linarith))
  have h3 : MWE ≤ SRE := ms.apply_mono hd hr (min_le_left _ _)
  simp only [minimapWindowDrag, boundedValue]
  simp only [max_def, min_def]
  split_ifs <;> refine ⟨?_, ?_, ?_⟩ <;> (try dsimp only) <;> linarith

/-- Concrete instantiation of `minimap_window_drag_stays_in_bounds`. -/
theorem minimap_window_drag_stays_in_bounds_witness :
    (⟨0, 1000, 175, 525⟩ : LinearScale).d0 < (⟨0, 1000, 175, 525⟩ : LinearScale).d1 ∧
      (175 : ℚ) + 350 ≤ (⟨0, 1000, 175, 525⟩ : LinearScale).apply 1000 ∧
      (⟨0, 1000, 175, 525⟩ : LinearScale).apply 0 ≤
        (minimapWindowDrag ((⟨0, 1000, 175, 525⟩ : LinearScale).apply 0)
          ((⟨0, 1000, 175, 525⟩ : LinearScale).apply 1000)
          ((⟨0, 1000, 175, 525⟩ : LinearScale).apply (min 1000 (0 + 1000)))
          ((⟨0, 1000, 175, 525⟩ : LinearScale).apply (max 0 (1000 - 1000)))
          175 350 (-40)).1 :=
  ⟨by norm_num,
   by norm_num [LinearScale.apply],
   (minimap_window_drag_stays_in_bounds ⟨0, 1000, 175, 525⟩ 0 1000
      (by norm_num) (by norm_num) (by norm_num) 175 350 (-40)
      (by norm_num [LinearScale.apply]) (by norm_num [LinearScale.apply])).1⟩

/-- `sort_biosynthetic_orfs_last(a, b)` from `viewer.ts`, the comparison
function handed to `Array.prototype.sort` over a region's ORFs. -/
def sort_biosynthetic_orfs_last (a b : Orf) : ℚ :=
  if (a.type ≠ "biosynthetic" ∧ b.type ≠ "biosynthetic") ∨
      (a.type = "biosynthetic" ∧ b.type = "biosynthetic") then
    a.start - b.start
  else if a.type = "biosynthetic" then 1 else -1

/-- Claim C5: the comparator returns `a.start - b.start` when both arguments
are of type "biosynthetic" or both are not, a positive number when only the
first is, and a negative number when only the second is; consequently any list
sorted by this comparator (every in-order pair compares `≤ 0`) places every
non-biosynthetic ORF before every biosynthetic ORF, with each group in
ascending start order. -/
theorem sort_biosynthetic_orfs_last_spec :
    (∀ a b : Orf, (a.type = "biosynthetic" ↔ b.type = "biosynthetic") →
      sort_biosynthetic_orfs_last a b = a.start - b.start) ∧
    (∀ a b : Orf, a.type = "biosynthetic" → b.type ≠ "biosynthetic" →
      0 < sort_biosynthetic_orfs_last a b) ∧
    (∀ a b : Orf, a.type ≠ "biosynthetic" → b.type = "biosynthetic" →
      sort_biosynthetic_orfs_last a b < 0) ∧
    (∀ l : List Orf,
      l.Pairwise (fun a b => sort_biosynthetic_orfs_last a b ≤ 0) →
      l.Pairwise (fun a b =>
        (a.type = "biosynthetic" → b.type = "biosynthetic") ∧
        ((a.type = "biosynthetic" ↔ b.type = "biosynthetic") →
          a.start ≤ b.start))) := by
  have hsame : ∀ a b : Orf,
      (a.type = "biosynthetic" ↔ b.type = "biosynthetic") →
      sort_biosynthetic_orfs_last a b = a.start - b.start := by
    intro a b h
    unfold sort_biosynthetic_orfs_last
    split_ifs with h1 h2
    · rfl
    · exact absurd (Or.inr ⟨h2, h.mp h2⟩) h1
    · exact absurd (Or.inl ⟨h2, fun hb => h2 (h.mpr hb)⟩) h1
  have hpos : ∀ a b : Orf, a.type = "biosynthetic" →
      b.type ≠ "biosynthetic" → 0 < sort_biosynthetic_orfs_last a b := by
    intro a b ha hb
    unfold sort_biosynthetic_orfs_last
    rw [if_neg, if_pos ha]
    · norm_num
    · rintro (⟨h1, _⟩ | ⟨_, h2⟩)
      · exact h1 ha
      · exact hb h2
  have hneg : ∀ a b : Orf, a.type ≠ "biosynthetic" →
      b.type = "biosynthetic" → sort_biosynthetic_orfs_last a b < 0 := by
    intro a b ha hb
    unfold sort_biosynthetic_orfs_last
    rw [if_neg, if_neg ha]
    · norm_num
    · rintro (⟨_, h1⟩ | ⟨h2, _⟩)
      · exact h1 hb
      · exact ha h2
  refine ⟨hsame, hpos, hneg, fun l hl => hl.imp ?_⟩
  intro a b hab
  constructor
  · intro ha
    by_contra hb
    exact absurd hab (not_le.mpr (hpos a b ha hb))
  · intro hiff
    have := hsame a b hiff
    linarith

/-- A concrete non-biosynthetic ORF used to instantiate hypotheses of proved
theorems. -/
def sampleOrf2 : Orf :=
  { locusTag := "xyz", start := 300, «end» := 400, strand := -1,
    type := "other", group := none }

/-- Concrete instantiation of `sort_biosynthetic_orfs_last_spec`. -/
theorem sort_biosynthetic_orfs_last_spec_witness :
    (0 : ℚ) < sort_biosynthetic_orfs_last sampleOrf sampleOrf2 :=
  sort_biosynthetic_orfs_last_spec.2.1 sampleOrf sampleOrf2 rfl (by decide)

/-- The abstract geometry produced by `geneArrowPoints`: the vertex sequence
in source order, and whether the SVG path string ends with the closing
`"Z"`. -/
structure ArrowShape where
  points : List (ℚ × ℚ)
  closed : Bool
deriving Repr, DecidableEq

/-- The `LABEL_HEIGHT` constant of `viewer.ts`. -/
def LABEL_HEIGHT : ℚ := 14

/-- `geneArrowPoints(orf, pathNotPoly)` from `viewer.ts`, parametrised over
the module-level state it reads (`scale`, `orfY`, `verticalOffset`,
`HEIGHT`).  The polygon string and the uninterrupted path string traverse the
same vertices in the same order; a split reverse-strand path starts at the
flat end instead so the origin-facing side stays open. -/
def geneArrowPoints (scale : LinearScale) (orfY verticalOffset HEIGHT : ℚ)
    (orf : Orf) (pathNotPoly : Bool) : ArrowShape :=
  let upper := orfY + LABEL_HEIGHT + verticalOffset
  let lower := orfY + LABEL_HEIGHT + HEIGHT - verticalOffset
  let middle := orfY + LABEL_HEIGHT + HEIGHT / 2
  let pts :=
    if orf.strand = 1 then
      let start := scale.apply orf.start
      let boxEnd := max (scale.apply orf.«end» - 2 * verticalOffset) start
      let pointEnd := scale.apply orf.«end»
      [(start, upper), (boxEnd, upper), (pointEnd, middle),
       (boxEnd, lower), (start, lower)]
    else if orf.strand = -1 then
      let pointStart := scale.apply orf.start
      let e := scale.apply orf.«end»
      let boxStart := min (scale.apply orf.start + 2 * verticalOffset) e
      if pathNotPoly && orf.isSplit then
        [(e, upper), (boxStart, upper), (pointStart, middle),
         (boxStart, lower), (e, lower)]
      else
        [(pointStart, middle), (boxStart, upper), (e, upper),
         (e, lower), (boxStart, lower)]
    else
      let start := scale.apply orf.start
      let e := scale.apply orf.«end»
      [(start, upper), (e, upper), (e, lower), (start, lower)]
  { points := pts, closed := pathNotPoly && !orf.isSplit }

/-- Claim C10: on the forward strand the arrow-body edge (the second vertex)
is clamped to `max(scale(end) - 2 * verticalOffset, scale(start))` and never
lies left of the scaled start; on the reverse strand it is clamped to
`min(scale(start) + 2 * verticalOffset, scale(end))` and never lies right of
the scaled end; for any other strand the output is a plain rectangle; the
closing `"Z"` is appended exactly when a path is requested for an ORF not
split across the origin. -/
theorem geneArrowPoints_clamped (scale : LinearScale)
    (orfY verticalOffset HEIGHT : ℚ) (orf : Orf) (pathNotPoly : Bool) :
    (orf.strand = 1 →
      (geneArrowPoints scale orfY verticalOffset HEIGHT orf
            pathNotPoly).points[1]? =
          some (max (scale.apply orf.«end» - 2 * verticalOffset)
              (scale.apply orf.start),
            orfY + LABEL_HEIGHT + verticalOffset) ∧
        scale.apply orf.start ≤
          max (scale.apply orf.«end» - 2 * verticalOffset)
            (scale.apply orf.start)) ∧
    (orf.strand = -1 →
      (geneArrowPoints scale orfY verticalOffset HEIGHT orf
            pathNotPoly).points[1]? =
          some (min (scale.apply orf.start + 2 * verticalOffset)
              (scale.apply orf.«end»),
            orfY + LABEL_HEIGHT + verticalOffset) ∧
        min (scale.apply orf.start + 2 * verticalOffset)
            (scale.apply orf.«end») ≤
          scale.apply orf.«end») ∧
    (orf.strand ≠ 1 → orf.strand ≠ -1 →
      (geneArrowPoints scale orfY verticalOffset HEIGHT orf
          pathNotPoly).points =
        [(scale.apply orf.start, orfY + LABEL_HEIGHT + verticalOffset),
         (scale.apply orf.«end», orfY + LABEL_HEIGHT + verticalOffset),
         (scale.apply orf.«end», orfY + LABEL_HEIGHT + HEIGHT - verticalOffset),
         (scale.apply orf.start,
           orfY + LABEL_HEIGHT + HEIGHT - verticalOffset)]) ∧
    (geneArrowPoints scale orfY verticalOffset HEIGHT orf
        pathNotPoly).closed = (pathNotPoly && !orf.isSplit) := by
  refine ⟨?_, ?_, ?_, rfl⟩
  · intro h1
    simp [geneArrowPoints, h1, le_max_right]
  · intro hm1
    have h1 : orf.strand ≠ 1 := by
      rw [hm1]
      decide
    by_cases hsplit : (pathNotPoly && orf.isSplit) = true <;>
      simp [geneArrowPoints, h1, hm1, hsplit, min_le_right]
  · intro h1 hm1
    simp [geneArrowPoints, h1, hm1]

/-- Concrete instantiation of `geneArrowPoints_clamped`. -/
theorem geneArrowPoints_clamped_witness :
    sampleOrf.strand = 1 ∧
      (geneArrowPoints ⟨0, 1000, 2, 698⟩ 26 10 100 sampleOrf true).points[1]? =
        some (max ((⟨0, 1000, 2, 698⟩ : LinearScale).apply sampleOrf.«end» -
            2 * 10) ((⟨0, 1000, 2, 698⟩ : LinearScale).apply sampleOrf.start),
          26 + LABEL_HEIGHT + 10) :=
  ⟨rfl,
   ((geneArrowPoints_clamped ⟨0, 1000, 2, 698⟩ 26 10 100 sampleOrf true).1
      rfl).1⟩

/-- The accumulator step of the `$(".svgene-selected-orf").each` loop in
`zoom_to_selection`: `-1` is the "not yet initialised" sentinel for both the
running minimum and the running maximum. -/
def zoomAccum (acc : ℚ × ℚ) (o : Orf) : ℚ × ℚ :=
  let s := if acc.1 = -1 then min o.start o.«end»
    else min acc.1 (min o.start o.«end»)
  let e := if acc.2 = -1 then max o.start o.«end»
    else max acc.2 (max o.start o.«end»)
  (s, e)

/-- The ORFs whose elements currently carry the selected class, in element
order. -/
def selectedOrfList (orfs : List Orf) (sel : List Bool) : List Orf :=
  ((orfs.zip sel).filter (fun p => p.2)).map (fun p => p.1)

/-- `zoom_to_selection` from `viewer.ts`: folds the selected ORFs' coordinates
with `-1` sentinels, returns unchanged if nothing was selected, and otherwise
changes the view to the selection padded by 3000 nucleotides and clamped to
the region bounds. -/
def zoom_to_selection (s : ViewerState) : ViewerState :=
  match s.displayedRegion with
  | none => s
  | some r =>
    let acc := (selectedOrfList r.orfs s.selected).foldl zoomAccum (-1, -1)
    if acc.1 = -1 ∨ acc.2 = -1 then s
    else change_view (max r.start (acc.1 - 3000)) (min (acc.2 + 3000) r.«end»)
      none s

/-- Folding `zoomAccum` from nonnegative seeds over ORFs with nonnegative
coordinates never meets the `-1` sentinel again, so it computes the plain
running minimum and maximum. -/
theorem foldl_zoomAccum_eq (l : List Orf) :
    ∀ a b : ℚ, 0 ≤ a → 0 ≤ b → (∀ o ∈ l, 0 ≤ o.start ∧ 0 ≤ o.«end») →
      l.foldl zoomAccum (a, b) =
        (l.foldl (fun acc o => min acc (min o.start o.«end»)) a,
         l.foldl (fun acc o => max acc (max o.start o.«end»)) b) := by
  induction l with
  | nil => intro a b _ _ _; rfl
  | cons o t ih =>
    intro a b ha hb hl
    have ho := hl o (List.mem_cons_self o t)
    have hstep : zoomAccum (a, b) o =
        (min a (min o.start o.«end»), max b (max o.start o.«end»)) := by
      unfold zoomAccum
      dsimp only
      rw [if_neg (by intro h0; rw [h0] at ha; linarith),
          if_neg (by intro h0; rw [h0] at hb; linarith)]
    rw [List.foldl_cons, List.foldl_cons, List.foldl_cons, hstep]
    exact ih _ _ (le_min ha (le_min ho.1 ho.2))
      (le_trans hb (le_max_left _ _))
      (fun o' ho' => hl o' (List.mem_cons_of_mem o ho'))

/-- Folding the running minimum from a nonnegative seed over nonnegative ORF
coordinates stays nonnegative. -/
theorem foldl_runmin_nonneg (l : List Orf) :
    ∀ a : ℚ, 0 ≤ a → (∀ o ∈ l, 0 ≤ o.start ∧ 0 ≤ o.«end») →
      0 ≤ l.foldl (fun acc o => min acc (min o.start o.«end»)) a := by
  induction l with
  | nil => intro a ha _; exact ha
  | cons o t ih =>
    intro a ha hl
    have ho := hl o (List.mem_cons_self o t)
    rw [List.foldl_cons]
    exact ih _ (le_min ha (le_min ho.1 ho.2))
      (fun o' ho' => hl o' (List.mem_cons_of_mem o ho'))

/-- Folding the running maximum from a nonnegative seed over nonnegative ORF
coordinates stays nonnegative. -/
theorem foldl_runmax_nonneg (l : List Orf) :
    ∀ a : ℚ, 0 ≤ a → (∀ o ∈ l, 0 ≤ o.start ∧ 0 ≤ o.«end») →
      0 ≤ l.foldl (fun acc o => max acc (max o.start o.«end»)) a := by
  induction l with
  | nil => intro a ha _; exact ha
  | cons o t ih =>
    intro a ha hl
    rw [List.foldl_cons]
    exact ih _ (le_trans ha (le_max_left _ _))
      (fun o' ho' => hl o' (List.mem_cons_of_mem o ho'))

/-- Claim C4: with a displayed region and no selected ORFs,
`zoom_to_selection` changes nothing; with at least one selected ORF (all with
nonnegative genomic coordinates), it changes the view to
`[max(regionStart, minSelStart - 3000), min(maxSelEnd + 3000, regionEnd)]`
where `minSelStart` is the minimum over the selected ORFs of
`min(start, end)` and `maxSelEnd` the maximum of `max(start, end)`. -/
theorem zoom_to_selection_pads_and_clamps (s : ViewerState) (r : IRegion)
    (h : s.displayedRegion = some r) :
    (selectedOrfList r.orfs s.selected = [] → zoom_to_selection s = s) ∧
    ((∀ o ∈ selectedOrfList r.orfs s.selected, 0 ≤ o.start ∧ 0 ≤ o.«end») →
      ∀ o0 rest, selectedOrfList r.orfs s.selected = o0 :: rest →
        ∃ ms me : ℚ,
          ((selectedOrfList r.orfs s.selected).map
              (fun o => min o.start o.«end»)).min? = some ms ∧
          ((selectedOrfList r.orfs s.selected).map
              (fun o => max o.start o.«end»)).max? = some me ∧
          zoom_to_selection s =
            change_view (max r.start (ms - 3000)) (min (me + 3000) r.«end»)
              none s) := by
  constructor
  · intro hsel
    unfold zoom_to_selection
    rw [h]
    dsimp only
    rw [hsel]
    norm_num
  · intro hnn o0 rest hsel
    have ho0 := hnn o0 (by rw [hsel]; exact List.mem_cons_self o0 rest)
    have hrest : ∀ o ∈ rest, 0 ≤ o.start ∧ 0 ≤ o.«end» := by
      intro o ho
      exact hnn o (by rw [hsel]; exact List.mem_cons_of_mem o0 ho)
    have hfirst : zoomAccum (-1, -1) o0 =
        (min o0.start o0.«end», max o0.start o0.«end») := by
      unfold zoomAccum
      norm_num
    have hms0 : (0 : ℚ) ≤ min o0.start o0.«end» := le_min ho0.1 ho0.2
    have hme0 : (0 : ℚ) ≤ max o0.start o0.«end» :=
      le_trans ho0.1 (le_max_left _ _)
    have hfold : (selectedOrfList r.orfs s.selected).foldl zoomAccum
        (-1, -1) =
        (rest.foldl (fun acc o => min acc (min o.start o.«end»))
          (min o0.start o0.«end»),
         rest.foldl (fun acc o => max acc (max o.start o.«end»))
          (max o0.start o0.«end»)) := by
      rw [hsel, List.foldl_cons, hfirst]
      exact foldl_zoomAccum_eq rest _ _ hms0 hme0 hrest
    refine ⟨rest.foldl (fun acc o => min acc (min o.start o.«end»))
        (min o0.start o0.«end»),
      rest.foldl (fun acc o => max acc (max o.start o.«end»))
        (max o0.start o0.«end»), ?_, ?_, ?_⟩
    · rw [hsel]
      simp only [List.map_cons, List.min?_cons', List.foldl_map]
    · rw [hsel]
      simp only [List.map_cons, List.max?_cons', List.foldl_map]
    · have hmsn : (0 : ℚ) ≤ rest.foldl
          (fun acc o => min acc (min o.start o.«end»))
          (min o0.start o0.«end») :=
        foldl_runmin_nonneg rest _ hms0 hrest
      have hmen : (0 : ℚ) ≤ rest.foldl
          (fun acc o => max acc (max o.start o.«end»))
          (max o0.start o0.«end») :=
        foldl_runmax_nonneg rest _ hme0 hrest
      unfold zoom_to_selection
      rw [h]
      dsimp only
      rw [hfold]
      rw [if_neg]
      push_neg
      constructor <;> intro h0 <;> dsimp only at h0 <;>
        [rw [h0] at hmsn; rw [h0] at hmen] <;> linarith

/-- Concrete instantiation of `zoom_to_selection_pads_and_clamps`. -/
theorem zoom_to_selection_pads_and_clamps_witness :
    sampleState.displayedRegion = some sampleRegion ∧
      selectedOrfList sampleRegion.orfs sampleState.selected =
        sampleOrf :: [] ∧
      ∃ ms me : ℚ,
        ((selectedOrfList sampleRegion.orfs sampleState.selected).map
            (fun o => min o.start o.«end»)).min? = some ms ∧
        ((selectedOrfList sampleRegion.orfs sampleState.selected).map
            (fun o => max o.start o.«end»)).max? = some me ∧
        zoom_to_selection sampleState =
          change_view (max sampleRegion.start (ms - 3000))
            (min (me + 3000) sampleRegion.«end») none sampleState :=
  ⟨rfl, by decide,
   (zoom_to_selection_pads_and_clamps sampleState sampleRegion rfl).2
     (by decide) sampleOrf [] (by decide)⟩

/-- Applies `selectOrfs`/`deselectOrfs` to the ORF elements at the given
indices: each index has its selected flag set to the given value. -/
def setAll (sel : List Bool) (idxs : List ℕ) (v : Bool) : List Bool :=
  idxs.foldl (fun acc i => acc.set i v) sel

/-- Effect of `deselectOrfs()` with no argument: every currently selected ORF
element is deselected, leaving all flags cleared. -/
def deselectAllOrfs (sel : List Bool) : List Bool :=
  List.replicate sel.length false

/-- `multi_select(geneElement)` from `viewer.ts`, on the selection flags.
`idxs` are the indices of the ORF elements in the given jQuery collection;
the source inspects the class list of the collection's first element. -/
def multi_select (idxs : List ℕ) (sel : List Bool) : List Bool :=
  match idxs.head? with
  | none => sel
  | some i =>
    if sel.getD i false then
      let s1 := setAll sel idxs false
      if selectedCount s1 = 0 then selectAllOrfs s1 else s1
    else
      let s1 := if selectedCount sel = 0 then deselectAllOrfs sel else sel
      setAll s1 idxs true

/-- `cdsSelector(element, skipFocusPanel)` from `viewer.ts`, on the selection
flags.  `idxs` are the indices of the ORF elements in the collection (d3's
`classed` reads the first), `otherSide` the index of the first datum's paired
cross-origin ORF if any.  The focus-panel DOM update has no counterpart in
the selection state. -/
def cdsSelector (idxs : List ℕ) (otherSide : Option ℕ) (sel : List Bool) :
    List Bool :=
  match idxs.head? with
  | none => sel
  | some i =>
    if sel.getD i false ∧ selectedCount sel = 1 then selectAllOrfs sel
    else
      let s1 := setAll (deselectAllOrfs sel) idxs true
      match otherSide with
      | none => s1
      | some j => s1.set j true

/-- `setAll` preserves the number of ORF elements. -/
theorem setAll_length (idxs : List ℕ) :
    ∀ (sel : List Bool) (v : Bool), (setAll sel idxs v).length = sel.length := by
  induction idxs with
  | nil => intro sel v; rfl
  | cons j rest ih =>
    intro sel v
    unfold setAll at ih ⊢
    rw [List.foldl_cons, ih, List.length_set]

/-- Setting one flag to `true` preserves the presence of a `true` flag. -/
theorem true_mem_set_true (sel : List Bool) (j : ℕ) (h : true ∈ sel) :
    true ∈ sel.set j true := by
  by_cases hj : j < sel.length
  · have hjl : j < (sel.set j true).length := by
      rw [List.length_set]
      exact hj
    exact List.mem_iff_getElem.mpr
      ⟨j, hjl, List.getElem_set_self (l := sel) (i := j) (a := true) hjl⟩
  · rw [List.set_eq_of_length_le (by omega)]
    exact h

/-- Setting flags to `true` over any index list preserves the presence of a
`true` flag. -/
theorem true_mem_setAll_true (idxs : List ℕ) :
    ∀ sel : List Bool, true ∈ sel → true ∈ setAll sel idxs true := by
  induction idxs with
  | nil => intro sel h; exact h
  | cons j rest ih =>
    intro sel h
    exact ih (sel.set j true) (true_mem_set_true sel j h)

/-- Setting flags to `true` over an index list containing a valid index
guarantees a `true` flag afterwards. -/
theorem true_mem_setAll_of_mem (idxs : List ℕ) :
    ∀ (sel : List Bool) (i : ℕ), i ∈ idxs → i < sel.length →
      true ∈ setAll sel idxs true := by
  induction idxs with
  | nil => intro sel i hi _; cases hi
  | cons j rest ih =>
    intro sel i hi hlen
    rcases List.mem_cons.mp hi with hij | hir
    · subst hij
      have hjl : i < (sel.set i true).length := by
        rw [List.length_set]
        exact hlen
      have hmem : true ∈ sel.set i true :=
        List.mem_iff_getElem.mpr
          ⟨i, hjl, List.getElem_set_self (l := sel) (i := i) (a := true) hjl⟩
      exact true_mem_setAll_true rest (sel.set i true) hmem
    · exact ih (sel.set j true) i hir (by rw [List.length_set]; exact hlen)

/-- A nonzero selected count means some flag is `true`. -/
theorem true_mem_of_selectedCount_ne (sel : List Bool)
    (h : selectedCount sel ≠ 0) : true ∈ sel := by
  unfold selectedCount at h
  exact List.count_pos_iff.mp (Nat.pos_of_ne_zero h)

/-- Claim C8: no selection-changing operation leaves the selection empty:
`multi_select` reselects all ORFs after toggling off the last selected one,
`cdsSelector` reselects all ORFs when applied to the sole selected one, and
`change_view` (not driven by the minimap) reselects all ORFs when it finds
none selected — so each of these always leaves at least one ORF selected. -/
theorem selection_never_left_empty :
    (∀ (idxs : List ℕ) (i : ℕ) (sel : List Bool), idxs.head? = some i →
      i < sel.length → true ∈ multi_select idxs sel) ∧
    (∀ (idxs : List ℕ) (otherSide : Option ℕ) (i : ℕ) (sel : List Bool),
      idxs.head? = some i → i < sel.length →
      true ∈ cdsSelector idxs otherSide sel) ∧
    (∀ (s : ViewerState) (r : IRegion) (a b : ℚ),
      s.displayedRegion = some r → 0 < s.selected.length →
      true ∈ (change_view a b none s).selected) := by
  have hhead : ∀ (idxs : List ℕ) (i : ℕ), idxs.head? = some i → i ∈ idxs := by
    intro idxs i hi
    cases idxs with
    | nil => cases hi
    | cons j rest =>
      rw [List.head?_cons, Option.some_inj] at hi
      subst hi
      exact List.mem_cons_self j rest
  refine ⟨?_, ?_, ?_⟩
  · intro idxs i sel hi hlen
    unfold multi_select
    rw [hi]
    dsimp only
    split_ifs with h1 h2 h3
    · rw [selectAllOrfs]
      refine List.mem_replicate.mpr ⟨?_, rfl⟩
      have := setAll_length idxs sel false
      omega
    · exact true_mem_of_selectedCount_ne _ h2
    · refine true_mem_setAll_of_mem idxs _ i (hhead idxs i hi) ?_
      rw [deselectAllOrfs, List.length_replicate]
      exact hlen
    · exact true_mem_setAll_of_mem idxs _ i (hhead idxs i hi) hlen
  · intro idxs otherSide i sel hi hlen
    unfold cdsSelector
    rw [hi]
    dsimp only
    split_ifs with h1
    · rw [selectAllOrfs]
      refine List.mem_replicate.mpr ⟨by omega, rfl⟩
    · have hbase : true ∈ setAll (deselectAllOrfs sel) idxs true := by
        refine true_mem_setAll_of_mem idxs _ i (hhead idxs i hi) ?_
        rw [deselectAllOrfs, List.length_replicate]
        exact hlen
      cases otherSide with
      | none => exact hbase
      | some j => exact true_mem_set_true _ j hbase
  · intro s r a b h hlen
    unfold change_view
    rw [h]
    dsimp only [Option.getD]
    rw [if_neg Bool.false_ne_true]
    split_ifs with h1
    · rw [selectAllOrfs]
      exact List.mem_replicate.mpr ⟨by omega, rfl⟩
    · exact true_mem_of_selectedCount_ne _ h1

/-- Concrete instantiation of `selection_never_left_empty`. -/
theorem selection_never_left_empty_witness :
    ([0] : List ℕ).head? = some 0 ∧ (0 : ℕ) < ([true] : List Bool).length ∧
      true ∈ multi_select [0] [true] :=
  ⟨rfl, by decide, selection_never_left_empty.1 [0] 0 [true] rfl (by decide)⟩

/-- Index of the ORF element matching a locus tag (the DOM lookup by
identifier in `selectOrfsByLoci`). -/
def locusIndex (r : IRegion) (tag : String) : ℕ :=
  r.orfs.findIdx (fun o => o.locusTag == tag)

/-- Index of the paired cross-origin ORF of the ORF at index `i`, when it has
one (`data.otherSide`). -/
def otherIndex (r : IRegion) (i : ℕ) : Option ℕ :=
  match r.orfs[i]? with
  | none => none
  | some o =>
    match o.otherSide with
    | none => none
    | some tag => some (locusIndex r tag)

/-- The jQuery collection built by `selectOrfsByLoci`: for each tag, the ORF
group element plus the paired cross-origin group element when present (only
ORF group elements are modelled; the additional bare container element added
for the first tag carries no selection flag). -/
def resolveSelection (r : IRegion) (tags : List String) : List ℕ :=
  tags.foldl (fun acc tag =>
    let i := locusIndex r tag
    match otherIndex r i with
    | none => acc ++ [i]
    | some j => acc ++ [i, j]) []

/-- `selectOrfsByLoci(tags, multiSelect)` from `viewer.ts`: returns untouched
without a displayed region or with an empty tag list, then hands the resolved
element collection to `multi_select` or `cdsSelector`. -/
def selectOrfsByLoci (tags : List String) (multiSelect : Bool)
    (s : ViewerState) : ViewerState :=
  match s.displayedRegion with
  | none => s
  | some r =>
    if tags.length < 1 then s
    else
      let idxs := resolveSelection r tags
      if multiSelect then { s with selected := multi_select idxs s.selected }
      else
        let otherIdx := otherIndex r (locusIndex r (tags.headD ""))
        { s with selected := cdsSelector idxs otherIdx s.selected }

/-- `resetView()` from `viewer.ts`: clears the legend selection, selects all
ORFs, and resets the view to the full region. -/
def resetView (s : ViewerState) : ViewerState :=
  match s.displayedRegion with
  | none => s
  | some r =>
    change_view r.start r.«end» none
      { s with selected := selectAllOrfs s.selected }

/-- `resetZoom()` from `viewer.ts`: resets the view to the full region
without changing any other state. -/
def resetZoom (s : ViewerState) : ViewerState :=
  match s.displayedRegion with
  | none => s
  | some r => change_view r.start r.«end» none s

/-- Claim C6: every exported viewer operation that depends on a displayed
region (`selectOrfsByLoci`, `zoom_to_selection`, `resetView`, `resetZoom`)
returns immediately when no region is displayed, leaving all viewer state
unchanged. -/
theorem no_region_ops_do_nothing (s : ViewerState) (tags : List String)
    (multiSelect : Bool) (h : s.displayedRegion = none) :
    selectOrfsByLoci tags multiSelect s = s ∧ zoom_to_selection s = s ∧
      resetView s = s ∧ resetZoom s = s := by
  unfold selectOrfsByLoci zoom_to_selection resetView resetZoom
  rw [h]
  exact ⟨rfl, rfl, rfl, rfl⟩

/-- A concrete viewer state with no displayed region. -/
def emptyState : ViewerState :=
  { displayedRegion := none, uniqueID := 0, scale := ⟨0, 100, 0, 100⟩,
    minimapScale := ⟨0, 100, 0, 100⟩, grabberA := 0, grabberB := 0,
    windowX := 0, windowWidth := 0, selected := [] }

/-- Concrete instantiation of `no_region_ops_do_nothing`. -/
theorem no_region_ops_do_nothing_witness :
    emptyState.displayedRegion = none ∧ resetView emptyState = emptyState :=
  ⟨rfl, (no_region_ops_do_nothing emptyState ["abc"] false rfl).2.2.1⟩

/-- JavaScript `a || b` on an optional string attribute: `undefined` and the
empty string are falsy. -/
def jsStringOr (a : Option String) (b : String) : String :=
  match a with
  | none => b
  | some s => if s = "" then b else s

/-- `copyToClipboard` from `clipboard.ts`, parametrised over the element's
`data-seq` attribute and the behaviour of `navigator.clipboard.writeText`
(modelled as fallible).  Returns the list of alerts raised; the function is
total, so no exception ever reaches the caller. -/
def copyToClipboard (dataSeq : Option String)
    (writeText : String → Except String Unit) : List String :=
  let text := jsStringOr dataSeq ""
  match writeText text with
  | Except.error _ =>
    ["A browser permissions error occured while trying to copy the sequence to the clipboard"]
  | Except.ok _ => ["Sequence copied to clipboard"]

/-- Claim C7: `copyToClipboard` never propagates an exception: when writing
the `data-seq` value (empty string if the attribute is missing) raises an
error, exactly the permissions-error alert is shown and the success alert is
not; otherwise exactly the success alert is shown. -/
theorem copyToClipboard_never_throws (dataSeq : Option String)
    (writeText : String → Except String Unit) :
    (∀ e, writeText (jsStringOr dataSeq "") = Except.error e →
      copyToClipboard dataSeq writeText =
        ["A browser permissions error occured while trying to copy the sequence to the clipboard"]) ∧
    (writeText (jsStringOr dataSeq "") = Except.ok () →
      copyToClipboard dataSeq writeText = ["Sequence copied to clipboard"]) := by
  constructor
  · intro e he
    unfold copyToClipboard
    dsimp only
    rw [he]
  · intro hok
    unfold copyToClipboard
    dsimp only
    rw [hok]

/-- Concrete instantiation of `copyToClipboard_never_throws`. -/
theorem copyToClipboard_never_throws_witness :
    (fun _ : String => (Except.ok () : Except String Unit))
        (jsStringOr (some "ATGC") "") = Except.ok () ∧
      copyToClipboard (some "ATGC") (fun _ => Except.ok ()) =
        ["Sequence copied to clipboard"] :=
  ⟨rfl,
   (copyToClipboard_never_throws (some "ATGC") (fun _ => Except.ok ())).2 rfl⟩

/-- The decimal digit character for a digit value. -/
def digitChar (d : ℕ) : Char := Char.ofNat (48 + d)

/-- Fuel-indexed decimal rendering of a natural number, most significant
digit first (JavaScript number-to-string for nonnegative integers). -/
def natToCharsFuel : ℕ → ℕ → List Char
  | 0, n => [digitChar (n % 10)]
  | Nat.succ f, n =>
    if n < 10 then [digitChar n]
    else natToCharsFuel f (n / 10) ++ [digitChar (n % 10)]

/-- Decimal rendering of a natural number. -/
def natToChars (n : ℕ) : List Char := natToCharsFuel n n

/-- JavaScript template-literal rendering of an integer. -/
def intToChars (i : ℤ) : List Char :=
  if i < 0 then '-' :: natToChars i.natAbs else natToChars i.toNat

/-- Fuel-indexed global string replacement scanning left to right without
overlap, as JavaScript `String.prototype.replace` with a `/.../g` pattern. -/
def replaceAllFuel (pat repl : List Char) : ℕ → List Char → List Char
  | _, [] => []
  | 0, l => l
  | Nat.succ f, c :: rest =>
    if pat ≠ [] ∧ (c :: rest).take pat.length = pat then
      repl ++ replaceAllFuel pat repl f ((c :: rest).drop pat.length)
    else c :: replaceAllFuel pat repl f rest

/-- Global string replacement (the fuel of one unit per consumed character
always suffices). -/
def replaceAll (pat repl l : List Char) : List Char :=
  replaceAllFuel pat repl l.length l

/-- `tag_to_id(tag)` from `viewer.ts`:
every `:` and `.` becomes a hyphen, then every occurrence of the pattern
`-svgeneorf` is replaced by `_orf`. -/
def tag_to_id (tag : List Char) : List Char :=
  replaceAll ("-svgeneorf".toList) ("_orf".toList)
    (tag.map (fun c => if c = ':' ∨ c = '.' then '-' else c))

/-- `locusToFullId(locusTag)` from `viewer.ts`: without a displayed region the
bare converted tag, otherwise
`u<uniqueID - 1>-region<idx>-<tag_to_id(locusTag)>`. -/
def locusToFullId (uniqueID : ℤ) (region : Option IRegion)
    (locusTag : List Char) : List Char :=
  match region with
  | none => tag_to_id locusTag
  | some r =>
    "u".toList ++ intToChars (uniqueID - 1) ++ "-region".toList ++
      intToChars r.idx ++ "-".toList ++ tag_to_id locusTag

/-- JavaScript `String.prototype.split` on a single-character separator. -/
def splitChar (sep : Char) : List Char → List (List Char)
  | [] => [[]]
  | c :: rest =>
    if c = sep then [] :: splitChar sep rest
    else
      match splitChar sep rest with
      | [] => [[c]]
      | g :: gs => (c :: g) :: gs

/-- `fullIdToLocus(identifier)` from `viewer.ts`:
the identifier is split on hyphens and the segment at index 2 is taken,
with `none` standing for JavaScript's
`undefined` when there is no third segment. -/
def fullIdToLocus (identifier : List Char) : Option (List Char) :=
  (splitChar '-' identifier)[2]?

/-- Every character produced by the decimal renderer is a digit, hence not a
hyphen. -/
theorem natToCharsFuel_no_hyphen (f : ℕ) :
    ∀ (n : ℕ) (c : Char), c ∈ natToCharsFuel f n → c ≠ '-' := by
  have hdigit : ∀ d : ℕ, d < 10 → digitChar d ≠ '-' := by decide
  induction f with
  | zero =>
    intro n c hc
    rw [natToCharsFuel] at hc
    rcases List.mem_singleton.mp hc with rfl
    exact hdigit _ (Nat.mod_lt _ (by omega))
  | succ f ih =>
    intro n c hc
    rw [natToCharsFuel] at hc
    split_ifs at hc with h10
    · rcases List.mem_singleton.mp hc with rfl
      exact hdigit _ h10
    · rcases List.mem_append.mp hc with h | h
      · exact ih _ _ h
      · rcases List.mem_singleton.mp h with rfl
        exact hdigit _ (Nat.mod_lt _ (by omega))

/-- Replacement with a pattern starting with a hyphen is the identity on
hyphen-free strings. -/
theorem replaceAllFuel_no_hyphen (pat repl : List Char)
    (hpat : pat.head? = some '-') (f : ℕ) :
    ∀ l : List Char, '-' ∉ l → replaceAllFuel pat repl f l = l := by
  induction f with
  | zero =>
    intro l _
    cases l <;> rfl
  | succ f ih =>
    intro l hl
    cases l with
    | nil => rfl
    | cons c rest =>
      rw [replaceAllFuel]
      rw [if_neg]
      · rw [ih rest (fun h => hl (List.mem_cons_of_mem c h))]
      · rintro ⟨hne, htake⟩
        cases pat with
        | nil => exact hne rfl
        | cons p ptail =>
          rw [List.head?_cons, Option.some_inj] at hpat
          subst hpat
          rw [List.length_cons, List.take_succ_cons] at htake
          have : c = '-' := (List.cons_eq_cons.mp htake).1
          exact hl (this ▸ List.mem_cons_self c rest)

/-- Splitting a list that starts with a separator-free prefix followed by the
separator peels off exactly that prefix. -/
theorem splitChar_append_sep (sep : Char) (rest : List Char) :
    ∀ a : List Char, sep ∉ a →
      splitChar sep (a ++ sep :: rest) = a :: splitChar sep rest := by
  intro a
  induction a with
  | nil =>
    intro _
    rw [List.nil_append, splitChar, if_pos rfl]
  | cons c a' ih =>
    intro ha
    have hc : ¬(c = sep) := fun h => ha (h ▸ List.mem_cons_self c a')
    rw [List.cons_append, splitChar, if_neg hc,
        ih (fun h => ha (List.mem_cons_of_mem c h))]

/-- Splitting a separator-free list yields that single segment. -/
theorem splitChar_of_not_mem (sep : Char) :
    ∀ l : List Char, sep ∉ l → splitChar sep l = [l] := by
  intro l
  induction l with
  | nil => intro _; rfl
  | cons c rest ih =>
    intro hl
    have hc : ¬(c = sep) := fun h => hl (h ▸ List.mem_cons_self c rest)
    rw [splitChar, if_neg hc, ih (fun h => hl (List.mem_cons_of_mem c h))]

/-- Mapping the colon-and-dot-to-hyphen substitution over a string containing
neither is the identity. -/
theorem map_colon_dot_eq_self :
    ∀ tag : List Char, (∀ c ∈ tag, c ≠ ':' ∧ c ≠ '.') →
      tag.map (fun c => if c = ':' ∨ c = '.' then '-' else c) = tag := by
  intro tag
  induction tag with
  | nil => intro _; rfl
  | cons c t ih =>
    intro h
    rcases h c (List.mem_cons_self c t) with ⟨h2, h3⟩
    have hc : (if c = ':' ∨ c = '.' then '-' else c) = c := by
      rw [if_neg]
      rintro (hx | hx)
      · exact h2 hx
      · exact h3 hx
    rw [List.map_cons, hc, ih (fun x hx => h x (List.mem_cons_of_mem c hx))]

/-- On a tag free of `-`, `:` and `.`, `tag_to_id` is the identity. -/
theorem tag_to_id_eq_self (tag : List Char)
    (htag : ∀ c ∈ tag, c ≠ '-' ∧ c ≠ ':' ∧ c ≠ '.') : tag_to_id tag = tag := by
  unfold tag_to_id replaceAll
  rw [map_colon_dot_eq_self tag (fun c hc => (htag c hc).2)]
  exact replaceAllFuel_no_hyphen _ _ (by decide) _ tag
    (fun h => (htag '-' h).1 rfl)

/-- Counterexample to claim C9 as stated: with no displayed region,
`locusToFullId` returns the bare tag, whose hyphen-split has no third
segment, so the round trip yields `undefined` instead of the tag. -/
theorem locus_roundtrip_no_region_counterexample :
    fullIdToLocus (locusToFullId 1 none ("abc".toList)) ≠
      some ("abc".toList) := by decide

/-- Claim C9 (amended): for every locus tag free of `-`, `:` and `.`, when a
region is displayed, at least one `drawRegion` call has completed (so
`uniqueID ≥ 1`) and the region index is nonnegative,
`fullIdToLocus(locusToFullId(tag)) = tag`; with no displayed region the
identifier has no third hyphen-separated segment and the round trip yields
`undefined`. -/
theorem locus_roundtrip_with_region (uniqueID : ℤ) (r : IRegion)
    (tag : List Char) (hu : 1 ≤ uniqueID) (hidx : 0 ≤ r.idx)
    (htag : ∀ c ∈ tag, c ≠ '-' ∧ c ≠ ':' ∧ c ≠ '.') :
    fullIdToLocus (locusToFullId uniqueID (some r) tag) = some tag := by
  have htagid := tag_to_id_eq_self tag htag
  have hu1 : intToChars (uniqueID - 1) = natToChars (uniqueID - 1).toNat := by
    unfold intToChars
    rw [if_neg (by omega)]
  have hr1 : intToChars r.idx = natToChars r.idx.toNat := by
    unfold intToChars
    rw [if_neg (by omega)]
  have hnat1 : '-' ∉ natToChars (uniqueID - 1).toNat := fun h =>
    natToCharsFuel_no_hyphen _ _ _ h rfl
  have hnat2 : '-' ∉ natToChars r.idx.toNat := fun h =>
    natToCharsFuel_no_hyphen _ _ _ h rfl
  have htagh : '-' ∉ tag := fun h => (htag '-' h).1 rfl
  unfold locusToFullId
  dsimp only
  rw [htagid, hu1, hr1]
  rw [show "u".toList = ['u'] from rfl,
      show "-region".toList = '-' :: "region".toList from rfl,
      show "-".toList = ['-'] from rfl]
  have hshape :
      ['u'] ++ natToChars (uniqueID - 1).toNat ++ ('-' :: "region".toList) ++
          natToChars r.idx.toNat ++ ['-'] ++ tag =
        ('u' :: natToChars (uniqueID - 1).toNat) ++ '-' ::
          (("region".toList ++ natToChars r.idx.toNat) ++ '-' :: tag) := by
    simp [List.append_assoc]
  rw [hshape]
  have ha1 : '-' ∉ 'u' :: natToChars (uniqueID - 1).toNat := by
    intro h
    rcases List.mem_cons.mp h with h | h
    · cases h
    · exact hnat1 h
  have ha2 : '-' ∉ "region".toList ++ natToChars r.idx.toNat := by
    intro h
    rcases List.mem_append.mp h with h | h
    · revert h
      decide
    · exact hnat2 h
  unfold fullIdToLocus
  rw [splitChar_append_sep _ _ _ ha1, splitChar_append_sep _ _ _ ha2,
      splitChar_of_not_mem _ tag htagh]
  rfl

/-- Concrete instantiation of `locus_roundtrip_with_region`. -/
theorem locus_roundtrip_with_region_witness :
    (1 : ℤ) ≤ 1 ∧ (0 : ℤ) ≤ sampleRegion.idx ∧
      fullIdToLocus (locusToFullId 1 (some sampleRegion) ("abc".toList)) =
        some ("abc".toList) :=
  ⟨le_refl 1, by decide,
   locus_roundtrip_with_region 1 sampleRegion ("abc".toList) (le_refl 1)
     (by decide) (by decide)⟩

end Antismash
